import Mathlib

/-!
Shallow embedding of the forklift CLI tool (Go), covering the interactive
repository-selection language (`selectRepositories`, `parseSelection`,
`tryLanguageFilter`, `selectDevRepositories` from the main package) and the
clone orchestration (`HarvestRepository` from `internal/harvester`, and the
per-item clone loop of `runForklift`).

Strings are modelled as Lean `String`; the Go helpers `strings.ToLower`,
`strings.TrimSpace` and `strings.Contains` are modelled for ASCII input
(every string occurring in the specification's claims is ASCII, where the
Go and Lean versions agree character for character).

The interactive loop reads stdin line by line; we model a session as the
list of lines typed.  When stdin is exhausted, Go's `bufio.ReadString`
returns the empty string together with `io.EOF`, which after `TrimSpace`
takes the `input == ""` branch and ends the loop returning the accumulated
selection; accordingly the model returns the accumulated selection when the
list of input lines is exhausted.
-/

namespace Forklift

/-- `forge.Repository` from `internal/forge/client.go`. -/
structure Repository where
  name : String
  description : String
  cloneURL : String
  sshURL : String
  language : String
  stars : Nat
  size : Nat
deriving DecidableEq, Repr

/-- ASCII whitespace recognised by Go's `unicode.IsSpace` (the Unicode-only
space characters never occur in the claims' inputs). -/
def isSpaceChar (c : Char) : Bool :=
  c = ' ' || c = '\t' || c = '\n' || c = '\x0b' || c = '\x0c' || c = '\r'

/-- Go `strings.TrimSpace` on a character list (restricted to ASCII whitespace). -/
def trimSpaceL (l : List Char) : List Char :=
  ((l.dropWhile isSpaceChar).reverse.dropWhile isSpaceChar).reverse

/-- Go `strings.TrimSpace` (restricted to ASCII whitespace). -/
def trimSpace (s : String) : String :=
  ⟨trimSpaceL s.toList⟩

/-- Go `strings.Split` with a one-character separator: split on every
occurrence, keeping empty fields; the empty string yields `[[]]`. -/
def splitOnChar (sep : Char) : List Char → List (List Char)
  | [] => [[]]
  | c :: t =>
    if c = sep then [] :: splitOnChar sep t
    else
      match splitOnChar sep t with
      | [] => [[c]]
      | h :: r => (c :: h) :: r

/-- `needle` occurs as a contiguous prefix of `hay`. -/
def listStarts : List Char → List Char → Bool
  | [], _ => true
  | _ :: _, [] => false
  | a :: as, b :: bs => a == b && listStarts as bs

/-- `needle` occurs as a contiguous run inside `hay`. -/
def listHasSub (needle : List Char) : List Char → Bool
  | [] => listStarts needle []
  | c :: t => listStarts needle (c :: t) || listHasSub needle t

/-- Go `strings.Contains s sub`. -/
def strHasSub (s sub : String) : Bool :=
  listHasSub sub.toList s.toList

/-- Go `strings.ToLower` (restricted to ASCII letters). -/
def toLowerStr (s : String) : String :=
  ⟨s.toList.map Char.toLower⟩

/-- Value of a non-empty all-digit character list, `none` otherwise. -/
def digitsVal : List Char → Option Nat
  | [] => none
  | l =>
    if l.all Char.isDigit then
      some (l.foldl (fun a c => a * 10 + (c.toNat - 48)) 0)
    else none

/-- Largest value of Go's 64-bit `int`; `strconv.Atoi` errors beyond it. -/
def goIntMax : Nat := 9223372036854775807

/-- Go `strconv.Atoi` on a character list: optional sign, decimal digits,
range-checked; `none` models a returned error. -/
def atoiL : List Char → Option Int
  | '+' :: rest =>
    (digitsVal rest).bind fun n =>
      if n ≤ goIntMax then some (n : Int) else none
  | '-' :: rest =>
    (digitsVal rest).bind fun n =>
      if n ≤ goIntMax + 1 then some (-(n : Int)) else none
  | l =>
    (digitsVal l).bind fun n =>
      if n ≤ goIntMax then some (n : Int) else none

/-- Go `strconv.Atoi`. -/
def atoi (s : String) : Option Int :=
  atoiL s.toList

/-- The 0-based indices contributed by a valid range token `start-end_`:
Go's `for i := start; i <= end; i++ { append(indices, i-1) }`. -/
def rangeIndices (start end_ : Int) : List Int :=
  (List.range (end_ - start + 1).toNat).map fun k => start + (k : Int) - 1

/-- `parseSelection` from main.go: split the input on commas; a token with a
dash is a range (valid when both endpoints parse, are positive, are at most
`maxLen` and ordered), otherwise a single number (valid when positive and at
most `maxLen`); invalid tokens contribute nothing. Produces 0-based indices. -/
def parseSelection (input : String) (maxLen : Nat) : List Int :=
  (splitOnChar ',' input.toList).foldl
    (fun indices part =>
      let part := trimSpaceL part
      if part.contains '-' then
        let rangeParts := splitOnChar '-' part
        if rangeParts.length = 2 then
          match atoiL (trimSpaceL (rangeParts.getD 0 [])),
                atoiL (trimSpaceL (rangeParts.getD 1 [])) with
          | some start, some end_ =>
            if start > 0 && end_ > 0 &&
               start ≤ (maxLen : Int) && end_ ≤ (maxLen : Int) &&
               start ≤ end_ then
              indices ++ rangeIndices start end_
            else indices
          | _, _ => indices
        else indices
      else
        match atoiL part with
        | some num =>
          if num > 0 && num ≤ (maxLen : Int) then indices ++ [num - 1]
          else indices
        | none => indices)
    []

/-- `tryLanguageFilter` from main.go: the candidates whose language
case-insensitively equals the input; `none` (Go `nil`) when there are no
matches. -/
def tryLanguageFilter (repos : List Repository) (input : String) :
    Option (List Repository) :=
  let inputLower := toLowerStr input
  let matched := repos.filter fun repo => toLowerStr repo.language == inputLower
  if matched.length > 0 then some matched else none

/-- `excludeKeywords` from `selectDevRepositories`. -/
def excludeKeywords : List String :=
  ["docs", "documentation", "website", "blog", "awesome-"]

/-- `excludeLanguages` from `selectDevRepositories`. -/
def excludeLanguages : List String :=
  ["html", "css"]

/-- The per-repository flag computed by the body of the loop in
`selectDevRepositories`: `isDevRepo` stays `true` iff no exclude keyword
occurs in the lowered name or description and the lowered language equals
no excluded language. -/
def isDevRepo (repo : Repository) : Bool :=
  let lowerName := toLowerStr repo.name
  let lowerDesc := toLowerStr repo.description
  let lowerLang := toLowerStr repo.language
  !(excludeKeywords.any fun keyword =>
      strHasSub lowerName keyword || strHasSub lowerDesc keyword) &&
  !(excludeLanguages.any fun excludeLang => lowerLang == excludeLang)

/-- `selectDevRepositories` from main.go: keep, in order, the repositories
whose `isDevRepo` flag survives both exclusion loops. -/
def selectDevRepositories (repos : List Repository) : List Repository :=
  repos.filter isDevRepo

/-- The `alreadySelected` scan inside `selectRepositories`. -/
def alreadySelectedIn (selected : List Repository) (name : String) : Bool :=
  selected.any fun s => s.name == name

/-- One iteration of the index loop inside `selectRepositories`: a 0-based
index in bounds appends its repository unless a repository of the same name
was already selected. -/
def addIdx (repos selected : List Repository) (idx : Int) : List Repository :=
  if 0 ≤ idx then
    match repos[idx.toNat]? with
    | some r =>
      if alreadySelectedIn selected r.name then selected else selected ++ [r]
    | none => selected
  else selected

/-- The whole index loop inside `selectRepositories`. -/
def addIndices (repos : List Repository) (indices : List Int)
    (selected : List Repository) : List Repository :=
  indices.foldl (addIdx repos) selected

/-- The interactive loop of `selectRepositories`, over the list of lines
typed on stdin.  An exhausted input list behaves like the empty line (Go's
`ReadString` yields `""` at end of input). -/
def selectReposLoop :
    List Repository → List String → List Repository → List Repository
  | _, [], selected => selected
  | repos, line :: rest, selected =>
    let input := trimSpace line
    if input = "" then selected
    else if input = "all" then repos
    else if input = "dev" then selectDevRepositories repos
    else
      match tryLanguageFilter repos input with
      | some langFiltered => selectReposLoop langFiltered rest []
      | none =>
        let indices := parseSelection input repos.length
        selectReposLoop repos rest (addIndices repos indices selected)

/-- `selectRepositories` from main.go, as a function of the typed lines. -/
def selectRepositories (repos : List Repository) (inputs : List String) :
    List Repository :=
  selectReposLoop repos inputs []

/-!  Clone orchestration (`internal/harvester/harvester.go` and the per-item
loop of `runForklift` in main.go).  The external collaborators — the
filesystem `os.Stat` check, `git.PlainClone`, and submodule update — are
modelled as an explicit environment; an `Option String` holds the error
text of a failing call, `none` meaning success. -/

/-- The external world `HarvestRepository` interacts with. -/
structure CloneWorld where
  pathDirExists : String → Bool
  cloneErr : String → String → Option String
  submoduleErr : String → Option String

/-- What one `HarvestRepository` call did: the error it returned (`none` on
success), whether `git.PlainClone` was invoked at all, and the warnings it
printed. -/
structure HarvestResult where
  err : Option String
  cloneAttempted : Bool
  warnings : List String
deriving DecidableEq, Repr

/-- `HarvestRepository` from `internal/harvester/harvester.go`: error out
(before any clone) when the destination exists; clone; on success, when
`recursive` is set, a submodule failure is only a printed warning. -/
def HarvestRepository (w : CloneWorld) (recursive : Bool)
    (url path : String) : HarvestResult :=
  if w.pathDirExists path then
    { err := some ("directory " ++ path ++ " already exists"),
      cloneAttempted := false, warnings := [] }
  else
    match w.cloneErr url path with
    | some e =>
      { err := some ("failed to harvest: " ++ e),
        cloneAttempted := true, warnings := [] }
    | none =>
      if recursive then
        match w.submoduleErr path with
        | some e =>
          { err := none, cloneAttempted := true,
            warnings := ["WARNING: failed to cultivate submodules: " ++ e] }
        | none => { err := none, cloneAttempted := true, warnings := [] }
      else { err := none, cloneAttempted := true, warnings := [] }

/-- Outcome of the per-repository body of the clone loop in `runForklift`:
which URLs were passed to `HarvestRepository`, in order, and whether the
repository ended up harvested. -/
structure ItemOutcome where
  attempts : List String
  success : Bool
deriving DecidableEq, Repr

/-- The body of the clone loop in `runForklift` for one selected
repository: clone from the SSH URL (or the HTTPS URL under `--https`); on
failure, when using SSH and the error text contains `"ssh"`, retry exactly
once with the HTTPS URL. -/
def harvestOne (w : CloneWorld) (useHTTPS recursive : Bool)
    (destDir : String) (repo : Repository) : ItemOutcome :=
  let repoPath := destDir ++ "/" ++ repo.name
  let cloneURL := if useHTTPS then repo.cloneURL else repo.sshURL
  match (HarvestRepository w recursive cloneURL repoPath).err with
  | none => { attempts := [cloneURL], success := true }
  | some errText =>
    if !useHTTPS && strHasSub errText "ssh" then
      match (HarvestRepository w recursive repo.cloneURL repoPath).err with
      | none => { attempts := [cloneURL, repo.cloneURL], success := true }
      | some _ => { attempts := [cloneURL, repo.cloneURL], success := false }
    else { attempts := [cloneURL], success := false }

/-- The clone loop of `runForklift` over all selected repositories: each
item is processed independently, a failure only moves on to the next. -/
def harvestLoop (w : CloneWorld) (useHTTPS recursive : Bool)
    (destDir : String) (selected : List Repository) : List ItemOutcome :=
  selected.map (harvestOne w useHTTPS recursive destDir)

/-!  Concrete fixtures used by the tests below. -/

/-- A repository record with canonical clone URLs, as the forge client
builds them. -/
def mkRepo (name description language : String) : Repository :=
  { name, description, language,
    cloneURL := "https://forge/" ++ name ++ ".git",
    sshURL := "git@forge:" ++ name ++ ".git",
    stars := 0, size := 0 }

/-- Five-item candidate collection for the numeric-selection tests. -/
def p1 : Repository := mkRepo "alpha" "a tool" "Go"
def p2 : Repository := mkRepo "bravo" "a library" "Python"
def p3 : Repository := mkRepo "charlie" "a service" "Rust"
def p4 : Repository := mkRepo "delta" "a daemon" "Go"
def p5 : Repository := mkRepo "echo" "a parser" "C"

def repos5 : List Repository := [p1, p2, p3, p4, p5]

/-- The three-repository collection of the end-to-end scenario. -/
def rA : Repository := mkRepo "A" "" "Go"
def rB : Repository := mkRepo "B" "" "HTML"
def rC : Repository := mkRepo "C" "" "Go"

def reposABC : List Repository := [rA, rB, rC]

/-- The development-repository exclusion predicate, written from the
specification's words: a candidate is excluded iff its name or description
contains (case-insensitive substring) one of the exclude keywords, or its
language case-insensitively equals `html` or `css`. -/
def specExcludedC2 (r : Repository) : Bool :=
  (["docs", "documentation", "website", "blog", "awesome-"].any fun kw =>
      strHasSub (toLowerStr r.name) (toLowerStr kw) ||
      strHasSub (toLowerStr r.description) (toLowerStr kw)) ||
  (toLowerStr r.language == "html" || toLowerStr r.language == "css")

theorem isDevRepo_eq_not_specExcluded (r : Repository) :
    isDevRepo r = !(specExcludedC2 r) := by
  simp [isDevRepo, specExcludedC2, excludeKeywords, excludeLanguages,
    toLowerStr, Bool.not_or]

/-- Claim C1: Numeric/range selection on the 5-item collection: `"2,4"`
selects the items at 1-indexed positions 2 and 4; `"2-4"` selects positions
2, 3, 4; `"0,6"` selects nothing (out-of-range tokens are silently
skipped); `"2,2"` selects position 2 exactly once. -/
theorem numeric_selection_examples :
    selectRepositories repos5 ["2,4"] = [p2, p4] ∧
    selectRepositories repos5 ["2-4"] = [p2, p3, p4] ∧
    selectRepositories repos5 ["0,6"] = [] ∧
    selectRepositories repos5 ["2,2"] = [p2] := by
  refine ⟨?_, ?_, ?_, ?_⟩ <;> decide

/-- Claim C2: The `dev` command returns exactly the non-excluded candidates,
in original collection order, where exclusion is by keyword in
name/description or by language `html`/`css`. -/
theorem dev_filter_exactly_nonexcluded (repos : List Repository) :
    selectDevRepositories repos = repos.filter fun r => !(specExcludedC2 r) := by
  unfold selectDevRepositories
  have h : isDevRepo = fun r => !(specExcludedC2 r) :=
    funext isDevRepo_eq_not_specExcluded
  rw [h]

/-- Unfolding of one loop iteration on a non-empty, non-`all`, non-`dev`
line (already in trimmed form): the language filter is consulted first, and
only when it yields no match is the line handed to numeric parsing. -/
theorem selectReposLoop_cons_step (repos : List Repository) (line : String)
    (rest : List String) (selected : List Repository)
    (htrim : trimSpace line = line) (h1 : line ≠ "") (h2 : line ≠ "all")
    (h3 : line ≠ "dev") :
    selectReposLoop repos (line :: rest) selected =
      match tryLanguageFilter repos line with
      | some langFiltered => selectReposLoop langFiltered rest []
      | none =>
        selectReposLoop repos rest
          (addIndices repos (parseSelection line repos.length) selected) := by
  rw [selectReposLoop]
  simp only [htrim, if_neg h1, if_neg h2, if_neg h3]

/-- A successful language filter is the nonempty sublist of candidates with
the queried language. -/
theorem tryLanguageFilter_eq_some (repos : List Repository) (input : String)
    (ms : List Repository) (h : tryLanguageFilter repos input = some ms) :
    ms = repos.filter (fun r => toLowerStr r.language == toLowerStr input) ∧
    ms ≠ [] := by
  unfold tryLanguageFilter at h
  by_cases hlen :
      (repos.filter fun r => toLowerStr r.language == toLowerStr input).length > 0
  · simp only [hlen, if_pos] at h
    cases h
    refine ⟨rfl, ?_⟩
    intro hnil
    rw [hnil] at hlen
    simp at hlen
  · simp only [hlen, if_neg] at h
    cases h

/-- Claim C3, amended: A line that is not empty, `all` or `dev` and
case-insensitively equals the language of at least one candidate restarts
the selection loop on the narrowed collection; the narrowed collection is a
nonempty sublist of the input collection — not necessarily strict — each of
whose items has the queried language. -/
theorem language_filter_restarts_on_matching_sublist
    (repos ms : List Repository) (line : String) (rest : List String)
    (selected : List Repository) (htrim : trimSpace line = line)
    (h1 : line ≠ "") (h2 : line ≠ "all") (h3 : line ≠ "dev")
    (hLF : tryLanguageFilter repos line = some ms) :
    selectReposLoop repos (line :: rest) selected = selectReposLoop ms rest [] ∧
    List.Sublist ms repos ∧ ms ≠ [] ∧
    (ms.all fun r => toLowerStr r.language == toLowerStr line) = true := by
  obtain ⟨hms, hne⟩ := tryLanguageFilter_eq_some repos line ms hLF
  refine ⟨?_, ?_, hne, ?_⟩
  · rw [selectReposLoop_cons_step repos line rest selected htrim h1 h2 h3, hLF]
  · rw [hms]; exact List.filter_sublist repos
  · rw [hms, List.all_eq_true]
    intro r hr
    exact (List.mem_filter.mp hr).2

/-- Claim C3, counterexample to strictness: With a single candidate of language
`Go`, the input `go` matches and the narrowed collection the engine
restarts on is the entire input collection, so the narrowing is not a
strict subset. -/
theorem language_filter_not_strict_counterexample :
    tryLanguageFilter [rA] "go" = some [rA] ∧
    selectReposLoop [rA] ["go"] [] = selectReposLoop [rA] [] [] := by
  refine ⟨by decide, ?_⟩
  rw [selectReposLoop_cons_step [rA] "go" [] [] (by decide) (by decide)
    (by decide) (by decide)]
  have h : tryLanguageFilter [rA] "go" = some [rA] := by decide
  rw [h]

/-- Witness for `language_filter_restarts_on_matching_sublist` at the
three-repository scenario, line `go`, accumulated selection `[rB]`. -/
theorem language_filter_restarts_witness :
    selectReposLoop reposABC ["go", "all"] [rB] =
      selectReposLoop [rA, rC] ["all"] [] ∧
    List.Sublist [rA, rC] reposABC ∧ ([rA, rC] : List Repository) ≠ [] ∧
    (([rA, rC] : List Repository).all fun r =>
      toLowerStr r.language == toLowerStr "go") = true :=
  language_filter_restarts_on_matching_sublist reposABC [rA, rC] "go" ["all"]
    [rB] (by decide) (by decide) (by decide) (by decide) (by decide)

/-- Claim C4: Language-filter interpretation takes priority over numeric
parsing: a line reaches numeric parsing only when the language filter finds
no match, and otherwise narrows the collection. -/
theorem language_filter_priority_over_numeric (repos : List Repository)
    (line : String) (rest : List String) (selected : List Repository)
    (htrim : trimSpace line = line) (h1 : line ≠ "") (h2 : line ≠ "all")
    (h3 : line ≠ "dev") :
    selectReposLoop repos (line :: rest) selected =
      match tryLanguageFilter repos line with
      | some langFiltered => selectReposLoop langFiltered rest []
      | none =>
        selectReposLoop repos rest
          (addIndices repos (parseSelection line repos.length) selected) :=
  selectReposLoop_cons_step repos line rest selected htrim h1 h2 h3

/-- Witness for `language_filter_priority_over_numeric` on a collection
whose only repository has language `"5"`: the numeric-looking line `5` is
consumed by the language filter. -/
theorem language_filter_priority_witness :
    selectReposLoop [mkRepo "num" "" "5"] ["5"] [p1] =
      match tryLanguageFilter [mkRepo "num" "" "5"] "5" with
      | some langFiltered => selectReposLoop langFiltered [] []
      | none =>
        selectReposLoop [mkRepo "num" "" "5"] []
          (addIndices [mkRepo "num" "" "5"]
            (parseSelection "5" [mkRepo "num" "" "5"].length) [p1]) :=
  language_filter_priority_over_numeric [mkRepo "num" "" "5"] "5" [] [p1]
    (by decide) (by decide) (by decide) (by decide)

/-- Claim C10: A successful language filter discards the partial selection
accumulated so far: the loop returns the restarted selection on the
narrowed collection with an empty accumulator, whatever had been selected
before. -/
theorem language_filter_discards_accumulated (repos ms : List Repository)
    (line : String) (rest : List String) (selected : List Repository)
    (htrim : trimSpace line = line) (h1 : line ≠ "") (h2 : line ≠ "all")
    (h3 : line ≠ "dev") (hLF : tryLanguageFilter repos line = some ms) :
    selectReposLoop repos (line :: rest) selected =
      selectReposLoop ms rest [] := by
  rw [selectReposLoop_cons_step repos line rest selected htrim h1 h2 h3, hLF]

/-- Witness for `language_filter_discards_accumulated`: with `rB` already
accumulated, the line `go` restarts on `[rA, rC]` with nothing accumulated,
and the session ends with an empty selection — `rB` is gone. -/
theorem language_filter_discards_witness :
    selectReposLoop reposABC ["go"] [rB] = selectReposLoop [rA, rC] [] [] :=
  language_filter_discards_accumulated reposABC [rA, rC] "go" [] [rB]
    (by decide) (by decide) (by decide) (by decide) (by decide)

/-- Adding one index preserves freedom from duplicate names. -/
theorem addIdx_names_nodup (repos sel : List Repository) (idx : Int)
    (h : (sel.map Repository.name).Nodup) :
    ((addIdx repos sel idx).map Repository.name).Nodup := by
  unfold addIdx
  split
  · cases hget : repos[idx.toNat]? with
    | none => exact h
    | some r =>
      by_cases hsel : alreadySelectedIn sel r.name
      · simp only [hsel, if_pos]
        exact h
      · dsimp only
        rw [if_neg hsel]
        simp only [List.map_append, List.map_cons, List.map_nil]
        rw [List.nodup_append]
        refine ⟨h, List.nodup_singleton r.name, ?_⟩
        intro a ha hb
        simp only [List.mem_singleton] at hb
        subst hb
        simp only [alreadySelectedIn, List.any_eq_true, beq_iff_eq,
          not_exists, not_and] at hsel
        obtain ⟨s, hs, hname⟩ := List.mem_map.mp ha
        exact hsel s hs hname
  · exact h

/-- Adding one index only ever appends. -/
theorem addIdx_append_only (repos sel : List Repository) (idx : Int) :
    ∃ t, addIdx repos sel idx = sel ++ t := by
  unfold addIdx
  split
  · cases repos[idx.toNat]? with
    | none => exact ⟨[], by simp⟩
    | some r =>
      by_cases hsel : alreadySelectedIn sel r.name
      · exact ⟨[], by simp [hsel]⟩
      · exact ⟨[r], by simp [hsel]⟩
  · exact ⟨[], by simp⟩

/-- The whole index loop preserves freedom from duplicate names. -/
theorem addIndices_names_nodup (repos : List Repository) (idxs : List Int) :
    ∀ sel : List Repository, (sel.map Repository.name).Nodup →
      ((addIndices repos idxs sel).map Repository.name).Nodup := by
  induction idxs with
  | nil => intro sel h; exact h
  | cons i is ih =>
    intro sel h
    simp only [addIndices, List.foldl_cons]
    exact ih (addIdx repos sel i) (addIdx_names_nodup repos sel i h)

/-- The whole index loop only ever appends. -/
theorem addIndices_append_only (repos : List Repository) (idxs : List Int) :
    ∀ sel : List Repository, ∃ t, addIndices repos idxs sel = sel ++ t := by
  induction idxs with
  | nil => intro sel; exact ⟨[], by simp [addIndices]⟩
  | cons i is ih =>
    intro sel
    obtain ⟨t1, ht1⟩ := addIdx_append_only repos sel i
    obtain ⟨t2, ht2⟩ := ih (addIdx repos sel i)
    refine ⟨t1 ++ t2, ?_⟩
    simp only [addIndices, List.foldl_cons] at ht2 ⊢
    rw [ht2, ht1, List.append_assoc]

/-- Claim C5: The accumulated selection is append-only and duplicate-free by
name, and re-submitting an index whose repository name is already selected
is a no-op: from a duplicate-free selection `sel`, any run of the index
loop yields a duplicate-free result that still begins with `sel`, and one
step on an in-bounds index whose name is already present returns `sel`
unchanged. -/
theorem selection_nodup_append_only_noop (repos : List Repository)
    (idxs : List Int) (sel : List Repository) (idx : Int) (r : Repository)
    (hnd : (sel.map Repository.name).Nodup) (hge : 0 ≤ idx)
    (hget : repos[idx.toNat]? = some r)
    (hmem : alreadySelectedIn sel r.name = true) :
    ((addIndices repos idxs sel).map Repository.name).Nodup ∧
    (addIndices repos idxs sel).take sel.length = sel ∧
    addIdx repos sel idx = sel := by
  refine ⟨addIndices_names_nodup repos idxs sel hnd, ?_, ?_⟩
  · obtain ⟨t, ht⟩ := addIndices_append_only repos idxs sel
    rw [ht]
    exact List.take_left sel t
  · unfold addIdx
    rw [if_pos hge, hget]
    simp only [hmem, if_pos]

/-- Witness for `selection_nodup_append_only_noop`: with `p2` already
selected, the session line `2,2` (indices `[1, 1]`) leaves the selection
duplicate-free and re-adding index 1 is a no-op. -/
theorem selection_nodup_witness :
    ((addIndices repos5 [1, 1] [p2]).map Repository.name).Nodup ∧
    (addIndices repos5 [1, 1] [p2]).take [p2].length = [p2] ∧
    addIdx repos5 [p2] 1 = [p2] :=
  selection_nodup_append_only_noop repos5 [1, 1] [p2] 1 p2 (by decide)
    (by decide) (by decide) (by decide)

/-- Claim C6: When the destination path already exists, `HarvestRepository`
returns the "already exists" error without ever invoking the clone
operation; the clone is attempted only on a fresh path. -/
theorem harvest_existing_path_no_clone (w : CloneWorld) (recursive : Bool)
    (url path : String) (h : w.pathDirExists path = true) :
    (HarvestRepository w recursive url path).err =
      some ("directory " ++ path ++ " already exists") ∧
    (HarvestRepository w recursive url path).cloneAttempted = false := by
  unfold HarvestRepository
  rw [if_pos h]
  exact ⟨rfl, rfl⟩

/-- A world in which every destination path already exists. -/
def wAllExists : CloneWorld :=
  { pathDirExists := fun _ => true,
    cloneErr := fun _ _ => none,
    submoduleErr := fun _ => none }

/-- Witness for `harvest_existing_path_no_clone` at a concrete URL and
path. -/
theorem harvest_existing_path_witness :
    (HarvestRepository wAllExists true "git@forge:alpha.git" "/dest/alpha").err =
      some ("directory " ++ "/dest/alpha" ++ " already exists") ∧
    (HarvestRepository wAllExists true "git@forge:alpha.git"
      "/dest/alpha").cloneAttempted = false :=
  harvest_existing_path_no_clone wAllExists true "git@forge:alpha.git"
    "/dest/alpha" (by decide)

/-- Claim C8: When submodule recursion is configured and the primary clone
succeeds, a submodule failure does not make `HarvestRepository` return an
error: the call still succeeds and the failure surfaces only as a printed
warning. -/
theorem submodule_failure_nonfatal (w : CloneWorld) (url path e : String)
    (h1 : w.pathDirExists path = false) (h2 : w.cloneErr url path = none)
    (h3 : w.submoduleErr path = some e) :
    (HarvestRepository w true url path).err = none ∧
    (HarvestRepository w true url path).warnings =
      ["WARNING: failed to cultivate submodules: " ++ e] := by
  unfold HarvestRepository
  rw [if_neg (by simp [h1]), h2, h3]
  exact ⟨rfl, rfl⟩

/-- A world in which cloning works but submodule materialization fails. -/
def wSubFail : CloneWorld :=
  { pathDirExists := fun _ => false,
    cloneErr := fun _ _ => none,
    submoduleErr := fun _ => some "submodule fetch refused" }

/-- Witness for `submodule_failure_nonfatal` at a concrete URL and path. -/
theorem submodule_failure_witness :
    (HarvestRepository wSubFail true "git@forge:alpha.git" "/dest/alpha").err =
      none ∧
    (HarvestRepository wSubFail true "git@forge:alpha.git"
      "/dest/alpha").warnings =
      ["WARNING: failed to cultivate submodules: " ++
        "submodule fetch refused"] :=
  submodule_failure_nonfatal wSubFail "git@forge:alpha.git" "/dest/alpha"
    "submodule fetch refused" (by decide) (by decide) (by decide)

/-- Claim C7: In the per-item clone loop under SSH: when the clone of an item
fails with an error whose text contains `"ssh"`, exactly one retry is made
for that item, using the item's HTTPS URL; and each item of the selection
is processed independently, so a failure never aborts the remaining
items. -/
theorem ssh_failure_single_https_retry (w : CloneWorld) (recursive : Bool)
    (destDir : String) (repo : Repository) (e : String)
    (pre post : List Repository)
    (h1 : (HarvestRepository w recursive repo.sshURL
            (destDir ++ "/" ++ repo.name)).err = some e)
    (h2 : strHasSub e "ssh" = true) :
    (harvestOne w false recursive destDir repo).attempts =
      [repo.sshURL, repo.cloneURL] ∧
    harvestLoop w false recursive destDir (pre ++ repo :: post) =
      harvestLoop w false recursive destDir pre ++
        harvestOne w false recursive destDir repo ::
          harvestLoop w false recursive destDir post := by
  constructor
  · cases hretry : (HarvestRepository w recursive repo.cloneURL
        (destDir ++ "/" ++ repo.name)).err with
    | none => simp [harvestOne, h1, h2, hretry]
    | some e2 => simp [harvestOne, h1, h2, hretry]
  · simp only [harvestLoop, List.map_append, List.map_cons]

/-- A world in which SSH-style URLs fail to clone with an `ssh` error and
HTTPS URLs succeed. -/
def wSSHFail : CloneWorld :=
  { pathDirExists := fun _ => false,
    cloneErr := fun url _ =>
      if strHasSub url "git@" then some "ssh: handshake failed" else none,
    submoduleErr := fun _ => none }

/-- Witness for `ssh_failure_single_https_retry`: `p1`'s SSH clone fails
with an `ssh` error, the single retry uses its HTTPS URL, and its
neighbours `p2`, `p3` are still processed. -/
theorem ssh_failure_retry_witness :
    (harvestOne wSSHFail false true "/dest" p1).attempts =
      [p1.sshURL, p1.cloneURL] ∧
    harvestLoop wSSHFail false true "/dest" ([p2] ++ p1 :: [p3]) =
      harvestLoop wSSHFail false true "/dest" [p2] ++
        harvestOne wSSHFail false true "/dest" p1 ::
          harvestLoop wSSHFail false true "/dest" [p3] :=
  ssh_failure_single_https_retry wSSHFail true "/dest" p1
    "failed to harvest: ssh: handshake failed" [p2] [p3] (by decide)
    (by decide)

/-- Claim C9, amended: End-to-end scenario on `[A, B, C]`: input `dev`
returns `[A, C]`; input `go` narrows the collection to `[A, C]` and
restarts selection on it (so `go` followed by `all` returns `[A, C]`,
while `go` followed by end of input returns the empty selection); input
`1` returns `[A]`. -/
theorem scenario_dev_go_one :
    selectRepositories reposABC ["dev"] = [rA, rC] ∧
    selectRepositories reposABC ["go", "all"] = [rA, rC] ∧
    selectRepositories reposABC ["go"] = selectRepositories [rA, rC] [] ∧
    selectRepositories reposABC ["1"] = [rA] := by
  refine ⟨?_, ?_, ?_, ?_⟩ <;> decide

/-- Claim C9, counterexample: Selection input `go` alone (followed by end of
input) does not return `[A, C]`: the language filter only narrows the
candidate collection, and the restarted loop ends with the empty
selection. -/
theorem scenario_go_alone_returns_empty :
    selectRepositories reposABC ["go"] = [] ∧
    ([] : List Repository) ≠ [rA, rC] := by
  refine ⟨by decide, by decide⟩

end Forklift
